import Mathlib

set_option maxRecDepth 100000

/-!
Shallow embedding of `Sources/CNESHAKE128/crypto/CSHAKE128_sha3.c`
(SHA-3 / Keccak-f[1600] sponge engine, tiny_sha3 style).

Machine integers are modelled as `Nat` reduced `% 2^64` where the C code
relies on 64-bit wraparound; the C `int` fields of `sha3_ctx_t` are
modelled as `Int`.  The 1600-bit state is 25 lanes (`List Nat`, each lane
a 64-bit word); the C union's byte view `st.b[i]` is the little-endian
byte view realised by `getByte` / `setByteXor`.
-/

/-- 64-bit left rotation, `ROTL64(x, y) = ((x << y) | (x >> (64 - y)))`
on `uint64_t`. -/
def rotl64 (x y : Nat) : Nat :=
  ((x <<< y) ||| (x >>> (64 - y))) % 2 ^ 64

/-- 64-bit bitwise complement (`~x` on `uint64_t`). -/
def not64 (x : Nat) : Nat :=
  x ^^^ (2 ^ 64 - 1)

/-- Round constants `keccakf_rndc[24]`. -/
def keccakf_rndc : List Nat :=
  [0x0000000000000001, 0x0000000000008082, 0x800000000000808a,
   0x8000000080008000, 0x000000000000808b, 0x0000000080000001,
   0x8000000080008081, 0x8000000000008009, 0x000000000000008a,
   0x0000000000000088, 0x0000000080008009, 0x000000008000000a,
   0x000000008000808b, 0x800000000000008b, 0x8000000000008089,
   0x8000000000008003, 0x8000000000008002, 0x8000000000000080,
   0x000000000000800a, 0x800000008000000a, 0x8000000080008081,
   0x8000000000008080, 0x0000000080000001, 0x8000000080008008]

/-- Rotation offsets `keccakf_rotc[24]`. -/
def keccakf_rotc : List Nat :=
  [1, 3, 6, 10, 15, 21, 28, 36, 45, 55, 2, 14,
   27, 41, 56, 8, 25, 43, 62, 18, 39, 61, 20, 44]

/-- Lane-permutation indices `keccakf_piln[24]`. -/
def keccakf_piln : List Nat :=
  [10, 7, 11, 17, 18, 3, 5, 16, 8, 21, 24, 4,
   15, 23, 19, 13, 12, 2, 20, 14, 22, 9, 6, 1]

/-- Theta step: column parities `bc[i]`, then
`st[j + i] ^= bc[(i+4)%5] ^ ROTL64(bc[(i+1)%5], 1)`. -/
def theta (st : List Nat) : List Nat :=
  let bc := (List.range 5).map fun i =>
    st.getD i 0 ^^^ st.getD (i + 5) 0 ^^^ st.getD (i + 10) 0 ^^^
      st.getD (i + 15) 0 ^^^ st.getD (i + 20) 0
  (List.range 25).map fun n =>
    st.getD n 0 ^^^
      (bc.getD ((n % 5 + 4) % 5) 0 ^^^ rotl64 (bc.getD ((n % 5 + 1) % 5) 0) 1)

/-- Fused Rho-Pi pass: `t = st[1]; for i < 24: j = piln[i];
bc[0] = st[j]; st[j] = ROTL64(t, rotc[i]); t = bc[0]`. -/
def rhoPi (st : List Nat) : List Nat :=
  ((List.range 24).foldl
    (fun p i =>
      let j := keccakf_piln.getD i 0
      (p.1.set j (rotl64 p.2 (keccakf_rotc.getD i 0)), p.1.getD j 0))
    (st, st.getD 1 0)).1

/-- Chi step: `st[j + i] ^= (~bc[(i+1)%5]) & bc[(i+2)%5]` with `bc` a copy
of the row taken before the updates. -/
def chi (st : List Nat) : List Nat :=
  (List.range 25).map fun n =>
    let row := 5 * (n / 5)
    st.getD n 0 ^^^
      (not64 (st.getD (row + (n % 5 + 1) % 5) 0) &&&
        st.getD (row + (n % 5 + 2) % 5) 0)

/-- One Keccak round: Theta, Rho-Pi, Chi, then Iota
(`st[0] ^= keccakf_rndc[r]`). -/
def keccakRound (st : List Nat) (r : Nat) : List Nat :=
  let st3 := chi (rhoPi (theta st))
  st3.set 0 (st3.getD 0 0 ^^^ keccakf_rndc.getD r 0)

/-- `CSHAKE128_sha3_keccakf`: the 24-round Keccak-f[1600] permutation
(little-endian byte view; the big-endian conversion in the C source is
compiled out on little-endian hosts). -/
def CSHAKE128_sha3_keccakf (st : List Nat) : List Nat :=
  (List.range 24).foldl keccakRound st

/-- `sha3_ctx_t`: 25-lane state plus `int pt, rsiz, mdlen`. -/
structure sha3_ctx_t where
  st : List Nat
  pt : Int
  rsiz : Int
  mdlen : Int
deriving DecidableEq, Repr

/-- Byte `i` of the state's little-endian byte view (`c->st.b[i]`). -/
def getByte (st : List Nat) (i : Nat) : Nat :=
  (st.getD (i / 8) 0 >>> (8 * (i % 8))) % 256

/-- `c->st.b[i] ^= v` on the little-endian byte view. -/
def setByteXor (st : List Nat) (i : Nat) (v : Nat) : List Nat :=
  st.set (i / 8) (st.getD (i / 8) 0 ^^^ (v <<< (8 * (i % 8))))

/-- The whole 200-byte view of the state. -/
def stateBytes (st : List Nat) : List Nat :=
  (List.range 200).map (getByte st)

/-- XOR `v` into entry `i` of a plain byte list. -/
def listXorAt (l : List Nat) (i : Nat) (v : Nat) : List Nat :=
  l.set i (l.getD i 0 ^^^ v)

/-- An arbitrary well-formed context standing for the uninitialized
stack local `sha3_ctx_t sha3` of `CSHAKE128_sha3` (every field is
overwritten by `CSHAKE128_sha3_init` before use). -/
def emptyCtx : sha3_ctx_t :=
  { st := List.replicate 25 0, pt := 0, rsiz := 0, mdlen := 0 }

/-- `CSHAKE128_sha3_init`: zero the 25 lanes, store `mdlen`,
`rsiz = 200 - 2 * mdlen`, `pt = 0`; returns 1. -/
def CSHAKE128_sha3_init (c : sha3_ctx_t) (mdlen : Int) : sha3_ctx_t × Int :=
  let st := (List.range 25).foldl (fun s i => s.set i 0) c.st
  ({ st := st, pt := 0, rsiz := 200 - 2 * mdlen, mdlen := mdlen }, 1)

/-- One iteration of the absorb loop of `CSHAKE128_sha3_update`:
`c->st.b[j++] ^= data[i]; if (j >= c->rsiz) keccakf, j = 0`. -/
def absorbStep (c : sha3_ctx_t) (b : Nat) : sha3_ctx_t :=
  let st1 := setByteXor c.st c.pt.toNat b
  if c.pt + 1 ≥ c.rsiz then
    { c with st := CSHAKE128_sha3_keccakf st1, pt := 0 }
  else
    { c with st := st1, pt := c.pt + 1 }

/-- `CSHAKE128_sha3_update`: absorb `data`; returns 1. -/
def CSHAKE128_sha3_update (c : sha3_ctx_t) (data : List Nat) :
    sha3_ctx_t × Int :=
  (data.foldl absorbStep c, 1)

/-- `CSHAKE128_sha3_final`: XOR `0x06` at `pt`, `0x80` at `rsiz - 1`, run
the permutation, copy the first `mdlen` state bytes to `md`; returns 1. -/
def CSHAKE128_sha3_final (c : sha3_ctx_t) : List Nat × sha3_ctx_t × Int :=
  let st1 := setByteXor c.st c.pt.toNat 0x06
  let st2 := setByteXor st1 (c.rsiz - 1).toNat 0x80
  let st3 := CSHAKE128_sha3_keccakf st2
  ((List.range c.mdlen.toNat).map (getByte st3), { c with st := st3 }, 1)

/-- `CSHAKE128_sha3`: one-shot hash, init + update + final on a stack
local context. -/
def CSHAKE128_sha3 (input : List Nat) (mdlen : Int) : List Nat :=
  let c0 := (CSHAKE128_sha3_init emptyCtx mdlen).1
  let c1 := (CSHAKE128_sha3_update c0 input).1
  (CSHAKE128_sha3_final c1).1

/-- `CSHAKE128_shake128_init(ctx) = CSHAKE128_sha3_init(ctx, 16)`. -/
def CSHAKE128_shake128_init (c : sha3_ctx_t) : sha3_ctx_t × Int :=
  CSHAKE128_sha3_init c 16

/-- `CSHAKE128_shake256_init(ctx) = CSHAKE128_sha3_init(ctx, 32)`. -/
def CSHAKE128_shake256_init (c : sha3_ctx_t) : sha3_ctx_t × Int :=
  CSHAKE128_sha3_init c 32

/-- `CSHAKE128_shake_update` delegates to `CSHAKE128_sha3_update`. -/
def CSHAKE128_shake_update (c : sha3_ctx_t) (data : List Nat) :
    sha3_ctx_t × Int :=
  CSHAKE128_sha3_update c data

/-- `CSHAKE128_shake_xof`: XOR `0x1F` at `pt`, `0x80` at `rsiz - 1`, run
the permutation and reset `pt` to 0. -/
def CSHAKE128_shake_xof (c : sha3_ctx_t) : sha3_ctx_t :=
  let st1 := setByteXor c.st c.pt.toNat 0x1F
  let st2 := setByteXor st1 (c.rsiz - 1).toNat 0x80
  { c with st := CSHAKE128_sha3_keccakf st2, pt := 0 }

/-- One iteration of the squeeze loop of `CSHAKE128_shake_read`:
`if (j >= c->rsiz) keccakf, j = 0; out[i] = c->st.b[j++]`. -/
def squeezeStep (c : sha3_ctx_t) : Nat × sha3_ctx_t :=
  if c.pt ≥ c.rsiz then
    let st := CSHAKE128_sha3_keccakf c.st
    (getByte st 0, { c with st := st, pt := 1 })
  else
    (getByte c.st c.pt.toNat, { c with pt := c.pt + 1 })

/-- `CSHAKE128_shake_read`: squeeze `len` bytes. -/
def CSHAKE128_shake_read (c : sha3_ctx_t) : Nat → List Nat × sha3_ctx_t
  | 0 => ([], c)
  | n + 1 =>
    let p := squeezeStep c
    let r := CSHAKE128_shake_read p.2 n
    (p.1 :: r.1, r.2)

/-- Big-endian numeric value of a byte string (for comparing a digest
with a hex constant). -/
def bytesToNatBE (l : List Nat) : Nat :=
  l.foldl (fun a b => a * 256 + b) 0

/-- Instrumented absorb step: `absorbStep` together with a counter of
Keccak permutation invocations. -/
def permCountFold (p : sha3_ctx_t × Nat) (b : Nat) : sha3_ctx_t × Nat :=
  (absorbStep p.1 b, p.2 + if p.1.pt + 1 ≥ p.1.rsiz then 1 else 0)

/-- Number of Keccak permutation invocations performed while
`CSHAKE128_sha3_update c data` absorbs `data`. -/
def permCount (c : sha3_ctx_t) (data : List Nat) : Nat :=
  (data.foldl permCountFold (c, 0)).2

/-- The spec's context invariant: `rsiz = 200 - 2 * mdlen`,
`0 < rsiz ≤ 200` and `0 ≤ pt < rsiz`. -/
def ctxInv (c : sha3_ctx_t) : Prop :=
  c.rsiz = 200 - 2 * c.mdlen ∧ 0 < c.rsiz ∧ c.rsiz ≤ 200 ∧
    0 ≤ c.pt ∧ c.pt < c.rsiz

/-- Weakened context invariant with `pt ≤ rsiz` (the state left by
`CSHAKE128_shake_read` after exhausting a rate block exactly). -/
def ctxInvLe (c : sha3_ctx_t) : Prop :=
  c.rsiz = 200 - 2 * c.mdlen ∧ 0 < c.rsiz ∧ c.rsiz ≤ 200 ∧
    0 ≤ c.pt ∧ c.pt ≤ c.rsiz

/-- A freshly initialized SHA3-256 context (witness fixture). -/
def sha3c256 : sha3_ctx_t := (CSHAKE128_sha3_init emptyCtx 32).1

/-- A freshly initialized SHAKE128 context (witness fixture). -/
def shakec128 : sha3_ctx_t := (CSHAKE128_shake128_init emptyCtx).1

/-! ### Helper lemmas -/

/-- `absorbStep` never changes `rsiz` or `mdlen`. -/
theorem absorbStep_frame (c : sha3_ctx_t) (b : Nat) :
    (absorbStep c b).rsiz = c.rsiz ∧ (absorbStep c b).mdlen = c.mdlen := by
  unfold absorbStep
  split <;> exact ⟨rfl, rfl⟩

/-- Folding `absorbStep` never changes `rsiz` or `mdlen`. -/
theorem foldl_absorbStep_frame (data : List Nat) :
    ∀ c : sha3_ctx_t,
      (data.foldl absorbStep c).rsiz = c.rsiz ∧
      (data.foldl absorbStep c).mdlen = c.mdlen := by
  induction data with
  | nil => exact fun c => ⟨rfl, rfl⟩
  | cons b rest ih =>
    intro c
    constructor
    · rw [List.foldl_cons, (ih _).1, (absorbStep_frame c b).1]
    · rw [List.foldl_cons, (ih _).2, (absorbStep_frame c b).2]

/-- `squeezeStep` never changes `rsiz` or `mdlen`. -/
theorem squeezeStep_frame (c : sha3_ctx_t) :
    (squeezeStep c).2.rsiz = c.rsiz ∧ (squeezeStep c).2.mdlen = c.mdlen := by
  unfold squeezeStep
  split <;> exact ⟨rfl, rfl⟩

/-- `CSHAKE128_shake_read` never changes `rsiz` or `mdlen`. -/
theorem shake_read_frame :
    ∀ (len : Nat) (c : sha3_ctx_t),
      (CSHAKE128_shake_read c len).2.rsiz = c.rsiz ∧
      (CSHAKE128_shake_read c len).2.mdlen = c.mdlen
  | 0, _ => ⟨rfl, rfl⟩
  | n + 1, c => by
    have ih := shake_read_frame n (squeezeStep c).2
    simp only [CSHAKE128_shake_read]
    exact ⟨ih.1.trans (squeezeStep_frame c).1, ih.2.trans (squeezeStep_frame c).2⟩

/-- `CSHAKE128_shake_read` returns exactly `len` bytes. -/
theorem shake_read_length :
    ∀ (len : Nat) (c : sha3_ctx_t), (CSHAKE128_shake_read c len).1.length = len
  | 0, _ => rfl
  | n + 1, c => by
    simp only [CSHAKE128_shake_read, List.length_cons]
    rw [shake_read_length n]

/-- Squeezing `m + k` bytes is squeezing `m` bytes and then `k` bytes. -/
theorem shake_read_split :
    ∀ (m : Nat) (c : sha3_ctx_t) (k : Nat),
      (CSHAKE128_shake_read c (m + k)).1 =
        (CSHAKE128_shake_read c m).1 ++
          (CSHAKE128_shake_read (CSHAKE128_shake_read c m).2 k).1 ∧
      (CSHAKE128_shake_read c (m + k)).2 =
        (CSHAKE128_shake_read (CSHAKE128_shake_read c m).2 k).2
  | 0, c, k => by simp [CSHAKE128_shake_read]
  | m + 1, c, k => by
    have h : m + 1 + k = (m + k) + 1 := by omega
    rw [h]
    simp only [CSHAKE128_shake_read]
    have ih := shake_read_split m (squeezeStep c).2 k
    exact ⟨by rw [ih.1]; simp, ih.2⟩

/-- The zeroing loop of `CSHAKE128_sha3_init` zeroes the first `n`
entries of the lane list. -/
theorem set_all_zero :
    ∀ (n : Nat) (l : List Nat),
      (List.range n).foldl (fun s i => s.set i 0) l =
        List.replicate (min n l.length) 0 ++ l.drop n := by
  intro n
  induction n with
  | zero => intro l; simp
  | succ n ih =>
    intro l
    rw [List.range_succ, List.foldl_append, ih]
    simp only [List.foldl_cons, List.foldl_nil]
    by_cases h : n < l.length
    · have hmin : min n l.length = n := by omega
      have hmin2 : min (n + 1) l.length = n + 1 := by omega
      rw [hmin, List.set_append_right _ _ (by simp),
        List.drop_eq_getElem_cons h, hmin2]
      simp only [List.length_replicate, Nat.sub_self, List.set_cons_zero]
      rw [List.replicate_succ' n (0 : Nat)]
      simp
    · have h1 : l.length ≤ n := by omega
      have hmin : min n l.length = l.length := by omega
      have hmin2 : min (n + 1) l.length = l.length := by omega
      rw [List.drop_eq_nil_of_le h1, List.drop_eq_nil_of_le (by omega), hmin,
        hmin2]
      exact List.set_eq_of_length_le (by simp [h1])

/-! ### Claims -/

/-- C2: for a context in a valid initialized state, absorbing `x` and
then `y` with `CSHAKE128_sha3_update` yields a context identical to one
absorb of `x ++ y`. -/
theorem sha3_update_streaming_append (c : sha3_ctx_t)
    (h1 : 0 < c.rsiz) (h2 : c.rsiz ≤ 200) (h3 : 0 ≤ c.pt) (h4 : c.pt < c.rsiz)
    (x y : List Nat) :
    (CSHAKE128_sha3_update (CSHAKE128_sha3_update c x).1 y).1 =
      (CSHAKE128_sha3_update c (x ++ y)).1 := by
  simp [CSHAKE128_sha3_update, List.foldl_append]

/-- Witness for C2 at a freshly initialized SHA3-256 context. -/
theorem sha3_update_streaming_append_witness :
    (CSHAKE128_sha3_update
        (CSHAKE128_sha3_update (CSHAKE128_sha3_init emptyCtx 32).1 [1, 2]).1
        [3]).1 =
      (CSHAKE128_sha3_update (CSHAKE128_sha3_init emptyCtx 32).1
        ([1, 2] ++ [3])).1 :=
  sha3_update_streaming_append (CSHAKE128_sha3_init emptyCtx 32).1
    (by decide) (by decide) (by decide) (by decide) [1, 2] [3]

/-- C5: on a context in squeeze mode, reading `m` then `k` bytes
concatenates to one read of `m + k` bytes and leaves an identical
context. -/
theorem shake_read_composable (c : sha3_ctx_t)
    (hc : ∃ c0, c = CSHAKE128_shake_xof c0) (m k : Nat) :
    (CSHAKE128_shake_read c m).1 ++
        (CSHAKE128_shake_read (CSHAKE128_shake_read c m).2 k).1 =
      (CSHAKE128_shake_read c (m + k)).1 ∧
      (CSHAKE128_shake_read (CSHAKE128_shake_read c m).2 k).2 =
        (CSHAKE128_shake_read c (m + k)).2 :=
  ⟨(shake_read_split m c k).1.symm, (shake_read_split m c k).2.symm⟩

/-- Witness for C5: squeeze 10 then 22 bytes out of a SHAKE128 context. -/
theorem shake_read_composable_witness :
    (CSHAKE128_shake_read
        (CSHAKE128_shake_xof (CSHAKE128_shake128_init emptyCtx).1) 10).1 ++
        (CSHAKE128_shake_read
          (CSHAKE128_shake_read
            (CSHAKE128_shake_xof (CSHAKE128_shake128_init emptyCtx).1) 10).2
          22).1 =
      (CSHAKE128_shake_read
        (CSHAKE128_shake_xof (CSHAKE128_shake128_init emptyCtx).1) (10 + 22)).1 ∧
      (CSHAKE128_shake_read
        (CSHAKE128_shake_read
          (CSHAKE128_shake_xof (CSHAKE128_shake128_init emptyCtx).1) 10).2
        22).2 =
        (CSHAKE128_shake_read
          (CSHAKE128_shake_xof (CSHAKE128_shake128_init emptyCtx).1)
          (10 + 22)).2 :=
  shake_read_composable
    (CSHAKE128_shake_xof (CSHAKE128_shake128_init emptyCtx).1)
    ⟨(CSHAKE128_shake128_init emptyCtx).1, rfl⟩ 10 22

/-- C9: `CSHAKE128_sha3_init` validates nothing: for every `mdlen`,
including `mdlen ≥ 100` (zero or negative `rsiz`), it zeroes the 25
lanes, stores `mdlen` and `rsiz = 200 - 2 * mdlen` as given, sets
`pt = 0` and returns 1. -/
theorem sha3_init_no_validation (c : sha3_ctx_t) (hlen : c.st.length = 25)
    (mdlen : Int) :
    CSHAKE128_sha3_init c mdlen =
      ({ st := List.replicate 25 0, pt := 0, rsiz := 200 - 2 * mdlen,
         mdlen := mdlen }, 1) := by
  have h := set_all_zero 25 c.st
  rw [hlen] at h
  rw [List.drop_eq_nil_of_le (by omega)] at h
  simp only [Nat.min_self, List.append_nil] at h
  unfold CSHAKE128_sha3_init
  rw [h]

/-- Witness for C9 at the invalid output length 150 (rate `-100`). -/
theorem sha3_init_no_validation_witness :
    CSHAKE128_sha3_init emptyCtx 150 =
      ({ st := List.replicate 25 0, pt := 0, rsiz := 200 - 2 * 150,
         mdlen := 150 }, 1) :=
  sha3_init_no_validation emptyCtx (by decide) 150

/-- C8 (amended): caller misuse is silently accepted, never prevented or
reported: `CSHAKE128_sha3_update` and `CSHAKE128_sha3_final` return 1 on
every context, and `CSHAKE128_shake_read` returns `len` bytes on every
context with no error channel. -/
theorem misuse_silently_accepted :
    (∀ (c : sha3_ctx_t) (data : List Nat),
        (CSHAKE128_sha3_update c data).2 = 1) ∧
    (∀ c : sha3_ctx_t, (CSHAKE128_sha3_final c).2.2 = 1) ∧
    (∀ (c : sha3_ctx_t) (len : Nat),
        (CSHAKE128_shake_read c len).1.length = len) :=
  ⟨fun _ _ => rfl, fun _ => rfl, fun c len => shake_read_length len c⟩

/-- C8 counterexample: absorbing after a fixed finalize still returns
the success code 1 and silently mutates the context, and squeezing a
never-finalized fresh context silently yields a byte. -/
theorem misuse_not_reported_counterexample :
    (CSHAKE128_sha3_update
        (CSHAKE128_sha3_final (CSHAKE128_sha3_init emptyCtx 32).1).2.1 [0]).2
      = 1 ∧
    (CSHAKE128_sha3_update
        (CSHAKE128_sha3_final (CSHAKE128_sha3_init emptyCtx 32).1).2.1 [0]).1
      ≠ (CSHAKE128_sha3_final (CSHAKE128_sha3_init emptyCtx 32).1).2.1 ∧
    (CSHAKE128_shake_read (CSHAKE128_sha3_init emptyCtx 16).1 1).1 = [0] := by
  decide

/-- C10: `CSHAKE128_sha3_update`, `CSHAKE128_sha3_final`,
`CSHAKE128_shake_xof` and `CSHAKE128_shake_read` leave `rsiz` and
`mdlen` unchanged on every context and input. -/
theorem ops_preserve_rsiz_mdlen :
    (∀ (c : sha3_ctx_t) (data : List Nat),
        (CSHAKE128_sha3_update c data).1.rsiz = c.rsiz ∧
        (CSHAKE128_sha3_update c data).1.mdlen = c.mdlen) ∧
    (∀ c : sha3_ctx_t,
        (CSHAKE128_sha3_final c).2.1.rsiz = c.rsiz ∧
        (CSHAKE128_sha3_final c).2.1.mdlen = c.mdlen) ∧
    (∀ c : sha3_ctx_t,
        (CSHAKE128_shake_xof c).rsiz = c.rsiz ∧
        (CSHAKE128_shake_xof c).mdlen = c.mdlen) ∧
    (∀ (c : sha3_ctx_t) (len : Nat),
        (CSHAKE128_shake_read c len).2.rsiz = c.rsiz ∧
        (CSHAKE128_shake_read c len).2.mdlen = c.mdlen) :=
  ⟨fun c data => foldl_absorbStep_frame data c,
   fun _ => ⟨rfl, rfl⟩,
   fun _ => ⟨rfl, rfl⟩,
   fun c len => shake_read_frame len c⟩

/-- C1 counterexample: the spec's 63-hex-digit SHA3-256 empty-input
vector (`a7ff...f8434`) does not match the digest computed by
`CSHAKE128_sha3`: the digest's big-endian value is `a7ff...f8434a`. -/
theorem sha3_empty_digest_ne_spec_hex :
    bytesToNatBE (CSHAKE128_sha3 [] 32) ≠
      0xa7ffc6f8bf1ed76651c14756a061d662f580ff4de43b49fa82d80a4b80f8434 := by
  decide

/-- C1 (amended): `CSHAKE128_sha3` of the empty input with
`mdlen = 32` is `a7ffc6f8bf1ed76651c14756a061d662f580ff4de43b49fa82d8
0a4b80f8434a` (the spec's vector is missing the final hex digit `a`),
and SHAKE128 of the empty input (`CSHAKE128_shake128_init`,
`CSHAKE128_shake_xof`, `CSHAKE128_shake_read` of 16 bytes) is
`7f9c2ba4e88f827d616045507605853e`. -/
theorem sha3_shake_empty_known_answer :
    CSHAKE128_sha3 [] 32 =
      [0xa7, 0xff, 0xc6, 0xf8, 0xbf, 0x1e, 0xd7, 0x66,
       0x51, 0xc1, 0x47, 0x56, 0xa0, 0x61, 0xd6, 0x62,
       0xf5, 0x80, 0xff, 0x4d, 0xe4, 0x3b, 0x49, 0xfa,
       0x82, 0xd8, 0x0a, 0x4b, 0x80, 0xf8, 0x43, 0x4a] ∧
    (CSHAKE128_shake_read
        (CSHAKE128_shake_xof (CSHAKE128_shake128_init emptyCtx).1) 16).1 =
      [0x7f, 0x9c, 0x2b, 0xa4, 0xe8, 0x8f, 0x82, 0x7d,
       0x61, 0x60, 0x45, 0x50, 0x76, 0x05, 0x85, 0x3e] := by
  decide

/-- C7 counterexample: reading one full rate block (168 bytes) from a
SHAKE128 context in squeeze mode leaves `pt = rsiz = 168`, violating
the claimed invariant `pt < rsiz`. -/
theorem shake_read_pt_eq_rsiz_counterexample :
    (CSHAKE128_shake_read
        (CSHAKE128_shake_xof (CSHAKE128_shake128_init emptyCtx).1) 168).2.pt
      = 168 ∧
    (CSHAKE128_shake_read
        (CSHAKE128_shake_xof (CSHAKE128_shake128_init emptyCtx).1) 168).2.rsiz
      = 168 ∧
    ¬ ((CSHAKE128_shake_read
          (CSHAKE128_shake_xof (CSHAKE128_shake128_init emptyCtx).1) 168).2.pt
        < (CSHAKE128_shake_read
            (CSHAKE128_shake_xof (CSHAKE128_shake128_init emptyCtx).1)
            168).2.rsiz) := by
  decide

/-- The `pt` field after one absorb iteration. -/
theorem absorbStep_pt (c : sha3_ctx_t) (b : Nat) :
    (absorbStep c b).pt = if c.pt + 1 ≥ c.rsiz then 0 else c.pt + 1 := by
  unfold absorbStep
  split <;> rfl

/-- The `pt` field after one squeeze iteration. -/
theorem squeezeStep_pt (c : sha3_ctx_t) :
    (squeezeStep c).2.pt = if c.pt ≥ c.rsiz then 1 else c.pt + 1 := by
  unfold squeezeStep
  split <;> rfl

/-- `absorbStep` preserves the context invariant. -/
theorem absorbStep_inv (c : sha3_ctx_t) (b : Nat) (h : ctxInv c) :
    ctxInv (absorbStep c b) := by
  obtain ⟨h1, h2, h3, h4, h5⟩ := h
  have ef := absorbStep_frame c b
  unfold ctxInv
  refine ⟨?_, ?_, ?_, ?_, ?_⟩
  · rw [ef.1, ef.2]
    exact h1
  · rw [ef.1]
    exact h2
  · rw [ef.1]
    exact h3
  · rw [absorbStep_pt]
    split <;> omega
  · rw [absorbStep_pt, ef.1]
    split <;> omega

/-- Folding `absorbStep` preserves the context invariant. -/
theorem foldl_absorbStep_inv (data : List Nat) :
    ∀ c : sha3_ctx_t, ctxInv c → ctxInv (data.foldl absorbStep c) := by
  induction data with
  | nil => exact fun c h => h
  | cons b rest ih =>
    intro c h
    rw [List.foldl_cons]
    exact ih _ (absorbStep_inv c b h)

/-- `squeezeStep` preserves the weakened context invariant. -/
theorem squeezeStep_invLe (c : sha3_ctx_t) (h : ctxInvLe c) :
    ctxInvLe (squeezeStep c).2 := by
  obtain ⟨h1, h2, h3, h4, h5⟩ := h
  have ef := squeezeStep_frame c
  unfold ctxInvLe
  refine ⟨?_, ?_, ?_, ?_, ?_⟩
  · rw [ef.1, ef.2]
    exact h1
  · rw [ef.1]
    exact h2
  · rw [ef.1]
    exact h3
  · rw [squeezeStep_pt]
    split <;> omega
  · rw [squeezeStep_pt, ef.1]
    split <;> omega

/-- `CSHAKE128_shake_read` preserves the weakened context invariant. -/
theorem shake_read_invLe :
    ∀ (len : Nat) (c : sha3_ctx_t), ctxInvLe c →
      ctxInvLe (CSHAKE128_shake_read c len).2
  | 0, _, h => h
  | n + 1, c, h => by
    simp only [CSHAKE128_shake_read]
    exact shake_read_invLe n (squeezeStep c).2 (squeezeStep_invLe c h)

/-- C7 (amended): valid initialization establishes
`rsiz = 200 - 2 * mdlen`, `0 < rsiz ≤ 200` and `0 ≤ pt < rsiz`;
`CSHAKE128_sha3_update` and `CSHAKE128_shake_xof` preserve the full
invariant, but `CSHAKE128_shake_read` only preserves the weakened bound
`0 ≤ pt ≤ rsiz`: after reading up to a rate-block boundary it leaves
`pt = rsiz` (the next read permutes before copying). -/
theorem sha3_ctx_invariants :
    (∀ (c : sha3_ctx_t) (mdlen : Int), 0 < 200 - 2 * mdlen →
        200 - 2 * mdlen ≤ 200 → ctxInv (CSHAKE128_sha3_init c mdlen).1) ∧
    (∀ (c : sha3_ctx_t) (data : List Nat), ctxInv c →
        ctxInv (CSHAKE128_sha3_update c data).1) ∧
    (∀ c : sha3_ctx_t, ctxInvLe c → ctxInv (CSHAKE128_shake_xof c)) ∧
    (∀ c : sha3_ctx_t, ctxInv c → ctxInvLe c) ∧
    (∀ (c : sha3_ctx_t) (len : Nat), ctxInvLe c →
        ctxInvLe (CSHAKE128_shake_read c len).2) :=
  ⟨fun _ mdlen hpos hle => ⟨rfl, hpos, hle, le_refl 0, hpos⟩,
   fun c data h => foldl_absorbStep_inv data c h,
   fun _ h => ⟨h.1, h.2.1, h.2.2.1, le_refl 0, h.2.1⟩,
   fun _ h => ⟨h.1, h.2.1, h.2.2.1, h.2.2.2.1, le_of_lt h.2.2.2.2⟩,
   fun c len h => shake_read_invLe len c h⟩

/-- Witness for C7 (amended) at a fresh SHAKE128 context. -/
theorem sha3_ctx_invariants_witness :
    ctxInv (CSHAKE128_sha3_init emptyCtx 16).1 :=
  sha3_ctx_invariants.1 emptyCtx 16 (by decide) (by decide)

/-- A non-boundary absorb iteration: no permutation is counted and `pt`
advances by one. -/
theorem permCountFold_nonboundary (c : sha3_ctx_t) (b : Nat) (n : Nat)
    (hc : ¬ c.pt + 1 ≥ c.rsiz) :
    permCountFold (c, n) b = (absorbStep c b, n) ∧
      (absorbStep c b).pt = c.pt + 1 := by
  constructor
  · unfold permCountFold
    rw [if_neg hc, Nat.add_zero]
  · unfold absorbStep
    rw [if_neg hc]

/-- A boundary absorb iteration: one permutation is counted and `pt`
resets to zero. -/
theorem permCountFold_boundary (c : sha3_ctx_t) (b : Nat) (n : Nat)
    (hc : c.pt + 1 ≥ c.rsiz) :
    permCountFold (c, n) b = (absorbStep c b, n + 1) ∧
      (absorbStep c b).pt = 0 := by
  constructor
  · unfold permCountFold
    rw [if_pos hc]
  · unfold absorbStep
    rw [if_pos hc]

/-- The instrumented fold computes the same context as the plain absorb
fold. -/
theorem permCountFold_fst (data : List Nat) :
    ∀ (c : sha3_ctx_t) (n : Nat),
      (data.foldl permCountFold (c, n)).1 = data.foldl absorbStep c := by
  induction data with
  | nil => intros; rfl
  | cons b rest ih =>
    intro c n
    rw [List.foldl_cons, List.foldl_cons]
    exact ih (absorbStep c b) _

/-- Absorbing strictly less than a full block: no permutation runs and
`pt` advances by the input length. -/
theorem absorbRun_lt (data : List Nat) :
    ∀ (c : sha3_ctx_t) (n : Nat), 0 ≤ c.pt →
      c.pt + data.length < c.rsiz →
      (data.foldl permCountFold (c, n)).2 = n ∧
      (data.foldl permCountFold (c, n)).1.pt = c.pt + data.length ∧
      (data.foldl permCountFold (c, n)).1.rsiz = c.rsiz := by
  induction data with
  | nil => exact fun c n h0 hlen => ⟨rfl, by simp, rfl⟩
  | cons b rest ih =>
    intro c n h0 hlen
    simp only [List.length_cons] at hlen
    have hc : ¬ c.pt + 1 ≥ c.rsiz := by push_cast at hlen; omega
    obtain ⟨hstep, hpt⟩ := permCountFold_nonboundary c b n hc
    have hrs : (absorbStep c b).rsiz = c.rsiz := (absorbStep_frame c b).1
    rw [List.foldl_cons, hstep]
    obtain ⟨ha, hb, hcc⟩ := ih (absorbStep c b) n (by omega)
      (by rw [hpt, hrs]; push_cast at hlen ⊢; omega)
    refine ⟨ha, ?_, hcc.trans hrs⟩
    rw [hb, hpt]
    simp only [List.length_cons]
    push_cast
    ring

/-- Absorbing exactly up to the block boundary: exactly one permutation
runs, at the final byte, and `pt` resets to zero. -/
theorem absorbRun_eq (data : List Nat) :
    ∀ (c : sha3_ctx_t) (n : Nat), 0 ≤ c.pt → data ≠ [] →
      c.pt + data.length = c.rsiz →
      (data.foldl permCountFold (c, n)).2 = n + 1 ∧
      (data.foldl permCountFold (c, n)).1.pt = 0 ∧
      (data.foldl permCountFold (c, n)).1.rsiz = c.rsiz := by
  induction data with
  | nil => exact fun c n h0 hne hlen => absurd rfl hne
  | cons b rest ih =>
    intro c n h0 hne hlen
    simp only [List.length_cons] at hlen
    by_cases hr : rest = []
    · subst hr
      simp only [List.length_nil] at hlen
      have hc : c.pt + 1 ≥ c.rsiz := by push_cast at hlen; omega
      obtain ⟨hstep, hpt⟩ := permCountFold_boundary c b n hc
      have hrs : (absorbStep c b).rsiz = c.rsiz := (absorbStep_frame c b).1
      rw [List.foldl_cons, hstep]
      exact ⟨rfl, hpt, hrs⟩
    · have hrl : 0 < rest.length := List.length_pos.mpr hr
      have hc : ¬ c.pt + 1 ≥ c.rsiz := by push_cast at hlen; omega
      obtain ⟨hstep, hpt⟩ := permCountFold_nonboundary c b n hc
      have hrs : (absorbStep c b).rsiz = c.rsiz := (absorbStep_frame c b).1
      rw [List.foldl_cons, hstep]
      obtain ⟨ha, hb, hcc⟩ := ih (absorbStep c b) n (by omega) hr
        (by rw [hpt, hrs]; push_cast at hlen ⊢; omega)
      exact ⟨ha, hb, hcc.trans hrs⟩

/-- C6: on a freshly initialized context with positive rate
`rsiz = 200 - 2 * mdlen`, absorbing exactly `rsiz` bytes runs exactly
one permutation and leaves `pt = 0`, and absorbing `rsiz + 1` bytes
runs exactly one permutation and leaves `pt = 1`. -/
theorem sha3_update_block_boundary (cprev : sha3_ctx_t) (mdlen : Int)
    (h : 0 < 200 - 2 * mdlen) (data : List Nat) :
    (data.length = ((200 : Int) - 2 * mdlen).toNat →
        permCount (CSHAKE128_sha3_init cprev mdlen).1 data = 1 ∧
        (CSHAKE128_sha3_update (CSHAKE128_sha3_init cprev mdlen).1
            data).1.pt = 0) ∧
    (data.length = ((200 : Int) - 2 * mdlen).toNat + 1 →
        permCount (CSHAKE128_sha3_init cprev mdlen).1 data = 1 ∧
        (CSHAKE128_sha3_update (CSHAKE128_sha3_init cprev mdlen).1
            data).1.pt = 1) := by
  have hcast : (((200 : Int) - 2 * mdlen).toNat : Int) = 200 - 2 * mdlen :=
    Int.toNat_of_nonneg (le_of_lt h)
  have hpt : (CSHAKE128_sha3_init cprev mdlen).1.pt = 0 := rfl
  have hrs : (CSHAKE128_sha3_init cprev mdlen).1.rsiz = 200 - 2 * mdlen := rfl
  constructor
  · intro hlen
    have hne : data ≠ [] := by
      intro h0
      rw [h0] at hlen
      simp at hlen
      omega
    obtain ⟨ha, hb, _⟩ := absorbRun_eq data (CSHAKE128_sha3_init cprev mdlen).1
      0 (by rw [hpt]) hne (by rw [hpt, hrs, hlen, hcast]; ring)
    refine ⟨ha, ?_⟩
    show (data.foldl absorbStep (CSHAKE128_sha3_init cprev mdlen).1).pt = 0
    rw [← permCountFold_fst data (CSHAKE128_sha3_init cprev mdlen).1 0]
    exact hb
  · intro hlen
    have htake : (data.take ((200 : Int) - 2 * mdlen).toNat).length =
        ((200 : Int) - 2 * mdlen).toNat := by
      rw [List.length_take]
      omega
    have hdrop : (data.drop ((200 : Int) - 2 * mdlen).toNat).length = 1 := by
      rw [List.length_drop]
      omega
    have hne : data.take ((200 : Int) - 2 * mdlen).toNat ≠ [] := by
      intro h0
      rw [h0] at htake
      simp at htake
      omega
    obtain ⟨ha1, hb1, hc1⟩ := absorbRun_eq
      (data.take ((200 : Int) - 2 * mdlen).toNat)
      (CSHAKE128_sha3_init cprev mdlen).1 0 (by rw [hpt]) hne
      (by rw [hpt, hrs, htake, hcast]; ring)
    obtain ⟨ha2, hb2, _⟩ := absorbRun_lt
      (data.drop ((200 : Int) - 2 * mdlen).toNat)
      ((data.take ((200 : Int) - 2 * mdlen).toNat).foldl permCountFold
        ((CSHAKE128_sha3_init cprev mdlen).1, 0)).1
      ((data.take ((200 : Int) - 2 * mdlen).toNat).foldl permCountFold
        ((CSHAKE128_sha3_init cprev mdlen).1, 0)).2
      (by rw [hb1]) (by rw [hb1, hc1, hrs, hdrop]; push_cast; omega)
    have hsplit := List.take_append_drop ((200 : Int) - 2 * mdlen).toNat data
    constructor
    · show (data.foldl permCountFold
          ((CSHAKE128_sha3_init cprev mdlen).1, 0)).2 = 1
      rw [← hsplit, List.foldl_append]
      rw [ha2, ha1]
    · show (data.foldl absorbStep (CSHAKE128_sha3_init cprev mdlen).1).pt = 1
      rw [← permCountFold_fst data (CSHAKE128_sha3_init cprev mdlen).1 0,
        ← hsplit, List.foldl_append]
      rw [hb2, hb1, hdrop]
      ring

/-- Witness for C6 at SHAKE128 (`mdlen = 16`, rate 168), absorbing 168
zero bytes. -/
theorem sha3_update_block_boundary_witness :
    permCount (CSHAKE128_sha3_init emptyCtx 16).1 (List.replicate 168 0) = 1 ∧
    (CSHAKE128_sha3_update (CSHAKE128_sha3_init emptyCtx 16).1
        (List.replicate 168 0)).1.pt = 0 :=
  (sha3_update_block_boundary emptyCtx 16 (by decide)
    (List.replicate 168 0)).1 (by decide)

/-- Bits 8 and above of a byte value are clear. -/
theorem testBit_of_lt_256 (v j : Nat) (hv : v < 256) (hj : 8 ≤ j) :
    v.testBit j = false := by
  apply Nat.testBit_lt_two_pow
  calc v < 256 := hv
    _ = 2 ^ 8 := by norm_num
    _ ≤ 2 ^ j := Nat.pow_le_pow_right (by norm_num) hj

/-- XORing a byte value shifted into byte position `q` of a word changes
byte `p` of the word exactly when `p = q`, and then by XORing the value. -/
theorem byteOf_xor_shifted (a v p q : Nat) (hv : v < 256) :
    ((a ^^^ (v <<< (8 * q))) >>> (8 * p)) % 256 =
      if p = q then ((a >>> (8 * p)) % 256) ^^^ v
      else (a >>> (8 * p)) % 256 := by
  have h256 : (256 : Nat) = 2 ^ 8 := by norm_num
  rw [h256]
  by_cases hpq : p = q
  · subst hpq
    rw [if_pos rfl]
    apply Nat.eq_of_testBit_eq
    intro j
    have hle : 8 * p ≤ 8 * p + j := Nat.le_add_right _ _
    simp only [Nat.testBit_mod_two_pow, Nat.testBit_xor, Nat.testBit_shiftRight,
      Nat.testBit_shiftLeft, ge_iff_le, hle, decide_True, Bool.true_and,
      Nat.add_sub_cancel_left]
    by_cases hj : j < 8
    · simp [hj]
    · rw [testBit_of_lt_256 v j hv (by omega)]
      simp [hj]
  · rw [if_neg hpq]
    apply Nat.eq_of_testBit_eq
    intro j
    simp only [Nat.testBit_mod_two_pow, Nat.testBit_xor, Nat.testBit_shiftRight,
      Nat.testBit_shiftLeft, ge_iff_le]
    by_cases hj : j < 8
    · by_cases hle : 8 * q ≤ 8 * p + j
      · have h8 : 8 ≤ 8 * p + j - 8 * q := by omega
        rw [testBit_of_lt_256 v _ hv h8]
        simp [hle]
      · simp [hle]
    · simp [hj]

/-- `getD` at the freshly `set` index. -/
theorem getD_set_self (l : List Nat) (n a : Nat) (h : n < l.length) :
    (l.set n a).getD n 0 = a := by
  rw [List.getD_eq_getElem?_getD, List.getElem?_set_self h]
  rfl

/-- `getD` at an index other than the `set` one. -/
theorem getD_set_ne (l : List Nat) (m n a : Nat) (h : m ≠ n) :
    (l.set m a).getD n 0 = l.getD n 0 := by
  rw [List.getD_eq_getElem?_getD, List.getD_eq_getElem?_getD,
    List.getElem?_set_ne h]

/-- `setByteXor` on the little-endian byte view: byte `k` of the state
after XORing `v` into byte `i` is byte `k` of the old state, XORed with
`v` exactly when `k = i`. -/
theorem getByte_setByteXor (st : List Nat) (i k v : Nat) (hv : v < 256)
    (hi : i / 8 < st.length) :
    getByte (setByteXor st i v) k =
      if k = i then getByte st k ^^^ v else getByte st k := by
  unfold getByte setByteXor
  by_cases hlane : k / 8 = i / 8
  · rw [hlane, getD_set_self st (i / 8) _ hi]
    rw [byteOf_xor_shifted (st.getD (i / 8) 0) v (k % 8) (i % 8) hv]
    by_cases hk : k = i
    · subst hk
      rw [if_pos rfl, if_pos rfl]
    · rw [if_neg hk, if_neg (by omega)]
  · rw [getD_set_ne st (i / 8) (k / 8) _ (by omega)]
    rw [if_neg (by omega)]

/-- `setByteXor` acts on `stateBytes` as a byte-level XOR at one index. -/
theorem stateBytes_setByteXor (st : List Nat) (i v : Nat) (hv : v < 256)
    (hi : i < 200) (hlen : st.length = 25) :
    stateBytes (setByteXor st i v) = listXorAt (stateBytes st) i v := by
  have hidiv : i / 8 < st.length := by omega
  unfold stateBytes listXorAt
  apply List.ext_getElem
  · simp
  · intro k h1 h2
    have hk : k < 200 := by simpa using h1
    have hi200 : i < ((List.range 200).map (getByte st)).length := by simpa
    rw [List.getElem_map, List.getElem_range, List.getElem_set]
    rw [getByte_setByteXor st i k v hv hidiv]
    have hgd : ((List.range 200).map (getByte st)).getD i 0 = getByte st i := by
      rw [List.getD_eq_getElem?_getD, List.getElem?_eq_getElem hi200]
      simp
    by_cases hki : k = i
    · subst hki
      rw [if_pos rfl, if_pos rfl, hgd]
    · rw [if_neg hki, if_neg (by omega), List.getElem_map, List.getElem_range]

/-- The first `m` state bytes are a prefix of the full byte view. -/
theorem stateBytes_take (st : List Nat) (m : Nat) (hm : m ≤ 200) :
    (List.range m).map (getByte st) = (stateBytes st).take m := by
  unfold stateBytes
  rw [← List.map_take, List.take_range, Nat.min_eq_left hm]

/-- C3: on a valid initialized context, `CSHAKE128_sha3_final` XORs
`0x06` into state byte `pt` and `0x80` into state byte `rsiz - 1` (both
acting on the byte view, also when they land on the same byte), runs one
Keccak permutation, and returns the first `mdlen` bytes of the resulting
byte view, leaving that permuted state in the context. -/
theorem sha3_final_contract (c : sha3_ctx_t) (hlen : c.st.length = 25)
    (hmd : c.rsiz = 200 - 2 * c.mdlen) (h1 : 0 < c.rsiz) (h2 : c.rsiz ≤ 200)
    (h3 : 0 ≤ c.pt) (h4 : c.pt < c.rsiz) :
    CSHAKE128_sha3_final c =
      ((stateBytes (CSHAKE128_sha3_keccakf
          (setByteXor (setByteXor c.st c.pt.toNat 0x06)
            (c.rsiz - 1).toNat 0x80))).take c.mdlen.toNat,
       { c with st := (CSHAKE128_sha3_keccakf
          (setByteXor (setByteXor c.st c.pt.toNat 0x06)
            (c.rsiz - 1).toNat 0x80)) }, 1) ∧
    stateBytes (setByteXor (setByteXor c.st c.pt.toNat 0x06)
        (c.rsiz - 1).toNat 0x80) =
      listXorAt (listXorAt (stateBytes c.st) c.pt.toNat 0x06)
        (c.rsiz - 1).toNat 0x80 := by
  have hm : c.mdlen.toNat ≤ 200 := by omega
  constructor
  · simp only [CSHAKE128_sha3_final]
    rw [stateBytes_take _ _ hm]
  · have hlen1 : (setByteXor c.st c.pt.toNat 0x06).length = 25 := by
      unfold setByteXor
      rw [List.length_set, hlen]
    rw [stateBytes_setByteXor _ _ _ (by norm_num) (by omega) hlen1,
      stateBytes_setByteXor _ _ _ (by norm_num) (by omega) hlen]

/-- Witness for C3 at a freshly initialized SHA3-256 context. -/
theorem sha3_final_contract_witness :
    CSHAKE128_sha3_final sha3c256 =
      ((stateBytes (CSHAKE128_sha3_keccakf
          (setByteXor (setByteXor sha3c256.st sha3c256.pt.toNat 0x06)
            (sha3c256.rsiz - 1).toNat 0x80))).take sha3c256.mdlen.toNat,
       { sha3c256 with st := (CSHAKE128_sha3_keccakf
          (setByteXor (setByteXor sha3c256.st sha3c256.pt.toNat 0x06)
            (sha3c256.rsiz - 1).toNat 0x80)) }, 1) ∧
    stateBytes (setByteXor (setByteXor sha3c256.st sha3c256.pt.toNat 0x06)
        (sha3c256.rsiz - 1).toNat 0x80) =
      listXorAt (listXorAt (stateBytes sha3c256.st) sha3c256.pt.toNat 0x06)
        (sha3c256.rsiz - 1).toNat 0x80 :=
  sha3_final_contract sha3c256 (by decide) (by decide) (by decide)
    (by decide) (by decide) (by decide)

/-- C4: `CSHAKE128_shake_xof` performs the same padding mechanics as the
fixed finalize with the domain byte `0x1F` instead of `0x06`, runs one
Keccak permutation, and resets `pt` to 0 (squeeze mode). -/
theorem shake_xof_contract (c : sha3_ctx_t) (hlen : c.st.length = 25)
    (h1 : 0 < c.rsiz) (h2 : c.rsiz ≤ 200) (h3 : 0 ≤ c.pt)
    (h4 : c.pt < c.rsiz) :
    CSHAKE128_shake_xof c =
      { c with st := (CSHAKE128_sha3_keccakf
          (setByteXor (setByteXor c.st c.pt.toNat 0x1F)
            (c.rsiz - 1).toNat 0x80)), pt := 0 } ∧
    stateBytes (setByteXor (setByteXor c.st c.pt.toNat 0x1F)
        (c.rsiz - 1).toNat 0x80) =
      listXorAt (listXorAt (stateBytes c.st) c.pt.toNat 0x1F)
        (c.rsiz - 1).toNat 0x80 := by
  constructor
  · rfl
  · have hlen1 : (setByteXor c.st c.pt.toNat 0x1F).length = 25 := by
      unfold setByteXor
      rw [List.length_set, hlen]
    rw [stateBytes_setByteXor _ _ _ (by norm_num) (by omega) hlen1,
      stateBytes_setByteXor _ _ _ (by norm_num) (by omega) hlen]

/-- Witness for C4 at a freshly initialized SHAKE128 context. -/
theorem shake_xof_contract_witness :
    CSHAKE128_shake_xof shakec128 =
      { shakec128 with st := (CSHAKE128_sha3_keccakf
          (setByteXor (setByteXor shakec128.st shakec128.pt.toNat 0x1F)
            (shakec128.rsiz - 1).toNat 0x80)), pt := 0 } ∧
    stateBytes (setByteXor (setByteXor shakec128.st shakec128.pt.toNat 0x1F)
        (shakec128.rsiz - 1).toNat 0x80) =
      listXorAt (listXorAt (stateBytes shakec128.st) shakec128.pt.toNat 0x1F)
        (shakec128.rsiz - 1).toNat 0x80 :=
  shake_xof_contract shakec128 (by decide) (by decide) (by decide)
    (by decide) (by decide)
